import Mathlib

/-!
Shallow embedding of the tictactoe-redis backend (`src/backend/main.go`).

The game engine is the embedded Lua script `luaScript` (main.go, lines
27-111), executed atomically by Redis via `EvalSha`.  The server-side
handlers (`handleClientMessage`, `rotatePlayers`, `resetBoardState`,
`close`, `writeToDisk`, `loadFromDisk`) are modelled as pure state
transformers over explicit state values:

* a board is the Redis hash `board:<id>` with the string fields
  `cells`, `turn`, `winner`, `playerXName`, `playerOName`;
* the rotation queue is the Redis list `board:<id>:queue`, a `List String`;
* the chat cache is the Redis list `board:<id>:chat`, an
  `Option (List String)` (`none` = key absent/expired);
* the durable chat log is the file `chat_history.jsonl`, a `List String`
  of lines;
* pub/sub publications and requester-directed replies are collected as
  explicit message lists.

Lua values read out of a table may be `nil`; we model such values as
`Option String` (`none` = `nil`).  The one reachable Lua runtime error
(`HSET` with a `nil` winner, possible only for malformed `cells`
strings shorter than 9 tokens) is modelled by an `Option` result of the
whole script: `none` means the script aborts with an error before its
single `HSET` write, leaving the hash unchanged, which the Go `move`
handler (`EvalSha ... err != nil`) swallows silently.
-/

namespace TicTacToeRedis

/-- The Lua helper `split(s)`: `string.gmatch(s, "[^,]+")` yields the
maximal nonempty runs of non-comma characters, i.e. split on `','` and
drop empty tokens.  `splitAux cs acc` processes the remaining characters
`cs` with the (reversed) current token `acc`. -/
def splitAux : List Char → List Char → List String
  | [], acc => if acc = [] then [] else [String.mk acc.reverse]
  | c :: cs, acc =>
    if c = ',' then
      (if acc = [] then [] else [String.mk acc.reverse]) ++ splitAux cs []
    else
      splitAux cs (c :: acc)

/-- The Lua helper `split(s)` from `luaScript`. -/
def split (s : String) : List String :=
  splitAux s.data []

/-- The Lua helper `join(tbl)`: `table.concat(tbl, ',')`. -/
def joinCells (l : List String) : String :=
  String.intercalate "," l

/-- 1-based Lua table read `t[i]`; out-of-range reads give `nil` (`none`). -/
def tblGet (t : List String) (i : Int) : Option String :=
  if 1 ≤ i then t.get? (i - 1).toNat else none

/-- 1-based Lua table write `t[i] = v` (only ever used in range in the
script, after the bounds and emptiness checks). -/
def tblSet (t : List String) (i : Int) (v : String) : List String :=
  if 1 ≤ i then t.set (i - 1).toNat v else t

/-- The `lines` table of `luaScript`: 3 rows, 3 columns, 2 diagonals,
in the script's fixed order, with 1-based cell indices. -/
def luaLines : List (Int × Int × Int) :=
  [(1,2,3),(4,5,6),(7,8,9),(1,4,7),(2,5,8),(3,6,9),(1,5,9),(3,5,7)]

/-- The winner-scanning loop of `luaScript`: `w` starts as `''`
(`some ""`), and the first line whose three cells satisfy
`a ~= '_' and a == b and b == c` sets `w = a` and breaks.  A matched
line of out-of-range (`nil`) cells yields `none`. -/
def scanLines (t : List String) : List (Int × Int × Int) → Option String
  | [] => some ""
  | (i, j, k) :: rest =>
    let a := tblGet t i
    let b := tblGet t j
    let c := tblGet t k
    if a ≠ some "_" ∧ a = b ∧ b = c then a else scanLines t rest

/-- The draw-scanning loop of `luaScript`: `draw` stays `true` iff no
`cellTbl[i] == '_'` for `i = 1..9` (a `nil` cell is not `'_'`). -/
def isDraw (t : List String) : Bool :=
  (List.range 9).all fun i => !(tblGet t (Int.ofNat i + 1) == some "_")

/-- The Redis hash `board:<id>` (`HGETALL`/`HSET` fields used by the
backend).  A missing field reads as `""` on the Go side; on the Lua side
the script substitutes the defaults itself, so we keep the defaulted
values in the state and model a fresh board by those defaults. -/
structure BoardState where
  cells : String
  turn : String
  winner : String
  playerXName : String
  playerOName : String
deriving DecidableEq, Repr

/-- The board produced by `resetBoardState` with unset seat fields:
the state of `board:0` right after server start-up. -/
def freshBoard : BoardState :=
  { cells := "_,_,_,_,_,_,_,_,_", turn := "X", winner := "", playerXName := "", playerOName := "" }

/-- The part of `luaScript` after the four validation checks (lines
66-110): write the symbol (already done in `cellTbl2`), scan for a
winner, classify win/draw/ok, toggle the turn only in the ok case, and
perform the single `HSET` write-back. -/
def applyMoveFinish (b : BoardState) (turn winner : String) (cellTbl2 : List String) :
    Option (List String × BoardState) :=
  match scanLines cellTbl2 luaLines with
  | none => none
  | some w =>
    if w ≠ "" then
      some (["win", joinCells cellTbl2, w, turn],
            { b with cells := joinCells cellTbl2, turn := turn, winner := w })
    else if isDraw cellTbl2 then
      some (["draw", joinCells cellTbl2, "draw", turn],
            { b with cells := joinCells cellTbl2, turn := turn, winner := "draw" })
    else
      let turn2 := if turn = "X" then "O" else "X"
      some (["ok", joinCells cellTbl2, winner, turn2],
            { b with cells := joinCells cellTbl2, turn := turn2, winner := winner })

/-- The Lua script `luaScript` (main.go lines 27-111), as a function of
the board hash and the two script arguments.  Returns `none` when the
script raises a Lua error (nil winner at `HSET`) — in that case the hash
is untouched and `EvalSha` surfaces an error the Go handler ignores.
Otherwise returns the Lua array reply together with the updated hash. -/
def applyMove (b : BoardState) (pos : Int) (sym : String) : Option (List String × BoardState) :=
  let cells := b.cells
  let turn := b.turn
  let winner := b.winner
  if winner ≠ "" then some (["error", cells, winner], b)
  else if sym ≠ turn then some (["error", cells, winner], b)
  else
    let cellTbl := split cells
    if pos < 1 ∨ pos > 9 then some (["error", cells, winner], b)
    else if tblGet cellTbl pos ≠ some "_" then some (["error", cells, winner], b)
    else applyMoveFinish b turn winner (tblSet cellTbl pos sym)

/-- The board hash after one `EvalSha` of the script: unchanged when the
script errors (its only write is the final `HSET`). -/
def stateAfter (b : BoardState) (pos : Int) (sym : String) : BoardState :=
  match applyMove b pos sym with
  | none => b
  | some (_, b') => b'

/-- The board hash after a sequence of `move` requests (no rotation in
between). -/
def applyMoves (b : BoardState) (ms : List (Int × String)) : BoardState :=
  ms.foldl (fun st m => stateAfter st m.1 m.2) b

/-! ## Server-side messages -/

/-- The server→client messages the backend produces (main.go: `sendJSON`
payloads and `rdb.Publish` payloads). -/
inductive ServerMsg where
  | errorMsg (error : String)
  | joined (boardId : Nat)
  | boardStateMsg (board : BoardState)
  | spectatorsUpdate (spectators : List String)
  | moveMade (position : Int) (symbol : String) (cells : String) (turn : String) (winner : String)
  | chatMsg (payload : String)
  | chatHistory (history : List String)
deriving DecidableEq, Repr

/-- Redis pub/sub fan-out: every message published on a board's channel
is delivered to each subscriber's relay goroutine (`subscribeToBoard`),
which forwards it to that connection. -/
def fanout (subs : List String) (msgs : List ServerMsg) : List (String × ServerMsg) :=
  msgs.flatMap fun m => subs.map fun s => (s, m)

/-! ## The `move` case of `handleClientMessage` (main.go lines 427-474) -/

/-- The `move` handler: runs the script, decodes the Lua array reply
exactly as the Go code does (silent return on script error or short
reply; `arr[i].(string)` type assertions default to `""`), and either
answers only the requester with an error or publishes `move_made` to the
board channel.  Result: (new board hash, reply to requester, published
messages, whether the delayed `rotatePlayers` goroutine is spawned). -/
def handleMove (b : BoardState) (pos : Int) (sym : String) :
    BoardState × Option ServerMsg × List ServerMsg × Bool :=
  match applyMove b pos sym with
  | none => (b, none, [], false)
  | some (arr, b') =>
    if arr.length < 2 then (b', none, [], false)
    else
      let status := (arr.get? 0).getD ""
      let newCells := (arr.get? 1).getD ""
      let winner := if 2 < arr.length then (arr.get? 2).getD "" else ""
      if status = "error" then (b', some (.errorMsg "invalid move"), [], false)
      else
        let nextTurn := if 3 < arr.length then (arr.get? 3).getD "" else ""
        (b', none, [.moveMade pos sym newCells nextTurn winner], winner ≠ "")

/-! ## Seats, rotation queue, and the `join` case (main.go lines 356-388) -/

/-- `resetBoardState` (main.go lines 313-320): `HSET` of the three game
fields to their initial values; seat fields untouched. -/
def resetBoardState (b : BoardState) : BoardState :=
  { b with cells := "_,_,_,_,_,_,_,_,_", turn := "X", winner := "" }

/-- Whether a seat field holds a real identity: `rotatePlayers` pushes a
seat holder back to the queue iff `p != "" && p != "Waiting..."`. -/
def isRealName (p : String) : Bool :=
  p ≠ "" && p ≠ "Waiting..."

/-- `LPop` with the `redis.Nil → "Waiting..."` substitution the Go code
applies to both pops in `rotatePlayers`. -/
def lPopOrSentinel (q : List String) : String × List String :=
  match q with
  | [] => ("Waiting...", [])
  | a :: rest => (a, rest)

/-- `rotatePlayers` (main.go lines 322-352): push real seat holders to
the back of the queue (X first, then O), `LPop` the new seat X (the
`"Waiting..."` sentinel when the queue is empty), `LPop` the new seat O,
`HSET` the seats, reset the game fields, then publish the refreshed
board state followed by the refreshed queue (`broadcastSpectators`).
Result: (new board hash, new queue, published messages in order). -/
def rotatePlayers (b : BoardState) (q : List String) :
    BoardState × List String × List ServerMsg :=
  let pX := b.playerXName
  let pO := b.playerOName
  let q1 := if isRealName pX then q ++ [pX] else q
  let q2 := if isRealName pO then q1 ++ [pO] else q1
  let r1 := lPopOrSentinel q2
  let newX := r1.1
  let r2 := lPopOrSentinel r1.2
  let newO := r2.1
  let q3 := r2.2
  let b' := resetBoardState { b with playerXName := newX, playerOName := newO }
  (b', q3, [.boardStateMsg b', .spectatorsUpdate q3])

/-- The seat/queue effect of the `join` case of `handleClientMessage`
(main.go lines 362-376): fill seat X if it is unset or the sentinel,
else seat O, else `RPUSH` onto the rotation queue. -/
def joinBoard (b : BoardState) (q : List String) (name : String) :
    BoardState × List String :=
  if b.playerXName = "" ∨ b.playerXName = "Waiting..." then
    ({ b with playerXName := name }, q)
  else if b.playerOName = "" ∨ b.playerOName = "Waiting..." then
    ({ b with playerOName := name }, q)
  else
    (b, q ++ [name])

/-- The queue effect of a connection teardown (`close`, main.go lines
209-213): `LREM key 0 name` removes every occurrence of the name, and
runs only when the connection had sent a `join` with a nonempty name. -/
def removeFromQueue (q : List String) (name : String) : List String :=
  q.filter fun x => x ≠ name

/-- The seat/queue operations that touch a board's membership state. -/
inductive RoomOp where
  | joinOp (name : String)
  | rotateOp
  | disconnectOp (name : String)
deriving DecidableEq, Repr

/-- One membership operation on (board hash, rotation queue). -/
def stepRoom (s : BoardState × List String) : RoomOp → BoardState × List String
  | .joinOp n => joinBoard s.1 s.2 n
  | .rotateOp =>
    let r := rotatePlayers s.1 s.2
    (r.1, r.2.1)
  | .disconnectOp n => if n = "" then s else (s.1, removeFromQueue s.2 n)

/-- A sequence of membership operations. -/
def runRoom (s : BoardState × List String) (ops : List RoomOp) : BoardState × List String :=
  ops.foldl stepRoom s

/-- How many times identity `n` occurs across seat X, seat O and the
rotation queue. -/
def occCount (n : String) (s : BoardState × List String) : Nat :=
  (if s.1.playerXName = n then 1 else 0) +
  (if s.1.playerOName = n then 1 else 0) +
  s.2.count n

/-- The spec's membership invariant: every real identity occurs at most
once across seat X, seat O and the queue. -/
def atMostOnce (s : BoardState × List String) : Prop :=
  ∀ n : String, isRealName n = true → occCount n s ≤ 1

/-! ## Chat: durable log, cache window, and the two fetch paths -/

/-- `loadFromDisk` (main.go lines 154-174): read every line of
`chat_history.jsonl` and keep the last `limit` of them. -/
def loadFromDisk (limit : Nat) (lines : List String) : List String :=
  if lines.length > limit then lines.drop (lines.length - limit) else lines

/-- `LTRIM key -50 -1`: keep the last 50 entries of the cache list. -/
def lTrimLast50 (l : List String) : List String :=
  if l.length > 50 then l.drop (l.length - 50) else l

/-- The chat-history part of the `get_board` case of
`handleClientMessage` (main.go lines 398-422): on cache presence
(`EXISTS > 0`) read the whole cached list; on cache miss load the last
50 lines from disk and, when nonempty, `RPUSH` them into the cache and
set a 1 hour expiry.  Result: (history sent to the requester, new cache). -/
def fetchHistory (disk : List String) (cache : Option (List String)) :
    List String × Option (List String) :=
  match cache with
  | some h => (h, some h)
  | none =>
    let history := loadFromDisk 50 disk
    if history.length > 0 then (history, some history) else (history, none)

/-- The externally visible side effects of the `chat` handler, in the
order the Go code performs them. -/
inductive ChatEffect where
  | diskAppend (line : String) (ok : Bool)
  | cachePush (line : String)
  | cacheTrimLast (keep : Nat)
  | cacheExpireSeconds (seconds : Nat)
  | publish (m : ServerMsg)
deriving DecidableEq, Repr

/-- The `chat` case of `handleClientMessage` (main.go lines 476-496)
together with `writeToDisk` (lines 137-152): first the disk append is
attempted (`writeToDisk` only logs on failure, so the handler continues
either way — `diskOk` says whether the append succeeded), then the
entry is `RPUSH`ed into the cache, the cache is trimmed to the last 50
entries, its expiry is set to 1 hour (3600 s), and finally the payload
is published to the board channel.  Result: (new disk log, new cache,
effect trace in execution order). -/
def handleChat (diskOk : Bool) (disk : List String) (cache : Option (List String))
    (entry : String) : List String × List String × List ChatEffect :=
  let disk' := if diskOk then disk ++ [entry] else disk
  let pushed := cache.getD [] ++ [entry]
  let cache' := lTrimLast50 pushed
  (disk', cache',
    [.diskAppend entry diskOk, .cachePush entry, .cacheTrimLast 50,
     .cacheExpireSeconds 3600, .publish (.chatMsg entry)])

/-- The cache/durable-log correspondence: whenever the cache key exists,
its contents are exactly the last 50 lines of the durable log. -/
def cacheInv (disk : List String) (cache : Option (List String)) : Prop :=
  ∀ h, cache = some h → h = loadFromDisk 50 disk

/-! ## Connection teardown (`close`, main.go lines 201-221) -/

/-- The per-connection state relevant to teardown: the `closed` flag
(guarded by `c.mu`), the identity/board recorded by `join`, and the
liveness of the resources `close` releases. -/
structure Client where
  closed : Bool
  name : String
  pubsubOpen : Bool
  doneClosed : Bool
  sendClosed : Bool
  connClosed : Bool
deriving DecidableEq, Repr

/-- `close` (main.go lines 201-221) acting on (connection, board queue):
a second call returns at the `c.closed` guard with no effect; the first
call sets `closed`, removes the connection's name (when nonempty) from
the rotation queue and re-broadcasts the queue, closes `done` (the
cancellation signal), closes the pubsub subscription if any, closes the
`send` buffer, and closes the network connection.
Result: ((connection, queue), published messages). -/
def closeClient (c : Client) (q : List String) :
    (Client × List String) × List ServerMsg :=
  if c.closed then ((c, q), [])
  else
    let q' := if c.name ≠ "" then removeFromQueue q c.name else q
    let published := if c.name ≠ "" then [ServerMsg.spectatorsUpdate q'] else []
    (({ c with closed := true, pubsubOpen := false, doneClosed := true,
               sendClosed := true, connClosed := true }, q'), published)

/-! ## Spec-side descriptions (for refinement statements)

These restate, in the spec's own terms, what the winner scan and the
draw scan compute; the theorems below prove the code's loops agree with
them on well-formed 9-cell tables. -/

/-- Modelled from the spec: the 8 triple-lines, 0-based, "3 rows, 3
columns, 2 diagonals, evaluated in that fixed order". -/
def specLines : List (Nat × Nat × Nat) :=
  [(0,1,2),(3,4,5),(6,7,8),(0,3,6),(1,4,7),(2,5,8),(0,4,8),(2,4,6)]

/-- Modelled from the spec: a triple-line holds three equal non-empty
symbols. -/
def lineDone (t : List String) (p : Nat × Nat × Nat) : Bool :=
  match t.get? p.1, t.get? p.2.1, t.get? p.2.2 with
  | some a, some b, some c => a ≠ "_" && a == b && b == c
  | _, _, _ => false

/-- Modelled from the spec: the symbol of the first completed
triple-line, if any. -/
def specWinner (t : List String) : Option String :=
  (specLines.find? (lineDone t)).map fun p => (t.get? p.1).getD ""

/-- Modelled from the spec: all 9 cells are occupied. -/
def boardFull (t : List String) : Bool :=
  t.all fun c => c ≠ "_"

/-! ## Helper lemmas -/

theorem splitAux_ne_nil (cs : List Char) :
    ∀ acc, ∀ c ∈ splitAux cs acc, c ≠ "" := by
  induction cs with
  | nil =>
    intro acc c hc
    simp only [splitAux] at hc
    split at hc
    · simp at hc
    · rename_i hacc
      simp only [List.mem_singleton] at hc
      subst hc
      intro h
      apply hacc
      have := congrArg String.data h
      simpa using this
  | cons a cs ih =>
    intro acc c hc
    simp only [splitAux] at hc
    split at hc
    · rw [List.mem_append] at hc
      rcases hc with hc | hc
      · split at hc
        · simp at hc
        · rename_i hacc
          simp only [List.mem_singleton] at hc
          subst hc
          intro h
          apply hacc
          have := congrArg String.data h
          simpa using this
      · exact ih [] c hc
    · exact ih (a :: acc) c hc

theorem split_ne_nil (s : String) : ∀ c ∈ split s, c ≠ "" :=
  splitAux_ne_nil s.data []

theorem tblGet_nat (t : List String) (i : Nat) :
    tblGet t (Int.ofNat i + 1) = t.get? i := by
  unfold tblGet
  rw [if_pos (by simp only [Int.ofNat_eq_coe]; omega)]
  congr 1
  simp only [Int.ofNat_eq_coe]
  omega

/-- Correspondence between a 1-based `Int` line of `luaLines` and a
0-based `Nat` line of `specLines`, with indices in range. -/
def lineCorr (L : Int × Int × Int) (P : Nat × Nat × Nat) : Prop :=
  L.1 = Int.ofNat P.1 + 1 ∧ L.2.1 = Int.ofNat P.2.1 + 1 ∧ L.2.2 = Int.ofNat P.2.2 + 1 ∧
  P.1 < 9 ∧ P.2.1 < 9 ∧ P.2.2 < 9

instance : ∀ L P, Decidable (lineCorr L P) := by
  intro L P
  unfold lineCorr
  infer_instance

theorem scanLines_eq_find (t : List String) (h9 : t.length = 9)
    (hne : ∀ c ∈ t, c ≠ "") :
    ∀ (Ls : List (Int × Int × Int)) (Ps : List (Nat × Nat × Nat)),
      List.Forall₂ lineCorr Ls Ps →
      scanLines t Ls =
        some ((((Ps.find? (lineDone t)).map fun p => (t.get? p.1).getD "")).getD "") ∧
      (∀ p, Ps.find? (lineDone t) = some p → (t.get? p.1).getD "" ≠ "") := by
  intro Ls Ps hcorr
  induction hcorr with
  | nil => simp [scanLines]
  | cons hLP _ ih =>
    rename_i L P Ls' Ps' _
    obtain ⟨hL1, hL2, hL3, hP1, hP2, hP3⟩ := hLP
    obtain ⟨a, ha⟩ : ∃ a, t.get? P.1 = some a :=
      ⟨t.get ⟨P.1, by omega⟩, List.get?_eq_get (by omega)⟩
    obtain ⟨b, hb⟩ : ∃ b, t.get? P.2.1 = some b :=
      ⟨t.get ⟨P.2.1, by omega⟩, List.get?_eq_get (by omega)⟩
    obtain ⟨c, hc⟩ : ∃ c, t.get? P.2.2 = some c :=
      ⟨t.get ⟨P.2.2, by omega⟩, List.get?_eq_get (by omega)⟩
    have ha' : t.get? P.1 = some a := ha
    have hga : tblGet t L.1 = some a := by rw [hL1, tblGet_nat, ha']
    have hgb : tblGet t L.2.1 = some b := by rw [hL2, tblGet_nat, hb]
    have hgc : tblGet t L.2.2 = some c := by rw [hL3, tblGet_nat, hc]
    have hdone : lineDone t P = (a ≠ "_" && a == b && b == c) := by
      unfold lineDone
      rw [ha', hb, hc]
    rcases L with ⟨i, j, k⟩
    by_cases hmatch : a ≠ "_" ∧ a = b ∧ b = c
    · have hdone' : lineDone t P = true := by
        rw [hdone]
        simp only [Bool.and_eq_true, bne_iff_ne, ne_eq, beq_iff_eq, decide_eq_true_eq]
        tauto
      constructor
      · show scanLines t ((i, j, k) :: Ls') = _
        rw [scanLines]
        simp only [hga, hgb, hgc]
        rw [if_pos (by simp only [ne_eq, Option.some.injEq]; tauto)]
        rw [List.find?_cons_of_pos _ hdone']
        rw [Option.map_some', Option.getD_some, ha', Option.getD_some]
      · intro p hp
        rw [List.find?_cons_of_pos _ hdone'] at hp
        cases hp
        rw [ha', Option.getD_some]
        exact hne a (List.get?_mem ha')
    · have hdone' : lineDone t P = false := by
        rw [hdone]
        simp only [Bool.and_eq_false_iff]
        by_contra hcon
        push_neg at hcon
        apply hmatch
        obtain ⟨⟨h1, h2⟩, h3⟩ := hcon
        refine ⟨by simpa using h1, by simpa using h2, by simpa using h3⟩
      constructor
      · show scanLines t ((i, j, k) :: Ls') = _
        rw [scanLines]
        simp only [hga, hgb, hgc]
        rw [if_neg (by simp only [ne_eq, Option.some.injEq]; tauto)]
        rw [List.find?_cons_of_neg _ (by simp [hdone'])]
        exact ih.1
      · intro p hp
        rw [List.find?_cons_of_neg _ (by simp [hdone'])] at hp
        exact ih.2 p hp

theorem scanLines_eq_specWinner (t : List String) (h9 : t.length = 9)
    (hne : ∀ c ∈ t, c ≠ "") :
    scanLines t luaLines = some ((specWinner t).getD "") ∧
    (∀ w, specWinner t = some w → w ≠ "") := by
  have hcorr : List.Forall₂ lineCorr luaLines specLines := by
    unfold luaLines specLines lineCorr
    refine List.Forall₂.cons (by norm_num) ?_
    refine List.Forall₂.cons (by norm_num) ?_
    refine List.Forall₂.cons (by norm_num) ?_
    refine List.Forall₂.cons (by norm_num) ?_
    refine List.Forall₂.cons (by norm_num) ?_
    refine List.Forall₂.cons (by norm_num) ?_
    refine List.Forall₂.cons (by norm_num) ?_
    refine List.Forall₂.cons (by norm_num) ?_
    exact List.Forall₂.nil
  have hmain := scanLines_eq_find t h9 hne luaLines specLines hcorr
  constructor
  · exact hmain.1
  · intro w hw
    unfold specWinner at hw
    obtain ⟨p, hp, hwp⟩ := Option.map_eq_some'.mp hw
    subst hwp
    exact hmain.2 p hp

theorem isDraw_eq_boardFull (t : List String) (h9 : t.length = 9) :
    isDraw t = boardFull t := by
  have hiff : isDraw t = true ↔ boardFull t = true := by
    unfold isDraw boardFull
    rw [List.all_eq_true, List.all_eq_true]
    constructor
    · intro h x hx
      obtain ⟨n, hn⟩ := List.mem_iff_get?.mp hx
      have hn9 : n < 9 := by
        obtain ⟨hlt, -⟩ := List.get?_eq_some.mp hn
        omega
      have hval := h n (List.mem_range.mpr hn9)
      rw [tblGet_nat, hn] at hval
      simpa using hval
    · intro h i hi
      have hi9 : i < 9 := List.mem_range.mp hi
      obtain ⟨x, hx⟩ : ∃ x, t.get? i = some x :=
        ⟨t.get ⟨i, by omega⟩, List.get?_eq_get (by omega)⟩
      have hval := h x (List.get?_mem hx)
      rw [tblGet_nat, hx]
      simpa using hval
  cases hD : isDraw t <;> cases hF : boardFull t <;> simp_all

theorem applyMoveFinish_status (b : BoardState) (turn winner : String)
    (t : List String) (r : List String) (b' : BoardState)
    (h : applyMoveFinish b turn winner t = some (r, b')) :
    r.get? 0 = some "win" ∨ r.get? 0 = some "draw" ∨ r.get? 0 = some "ok" := by
  unfold applyMoveFinish at h
  rcases hs : scanLines t luaLines with _ | w <;> rw [hs] at h <;> dsimp only at h
  · exact absurd h (by simp)
  · by_cases hw : w = ""
    · rw [if_neg (by simp [hw])] at h
      by_cases hd : isDraw t
      · rw [if_pos hd] at h
        cases h
        simp
      · rw [if_neg hd] at h
        cases h
        simp
    · rw [if_pos hw] at h
      cases h
      simp

theorem applyMove_success_eq (b : BoardState) (pos : Int) (sym : String)
    (hw : b.winner = "") (ht : sym = b.turn) (hp : ¬(pos < 1 ∨ pos > 9))
    (hc : tblGet (split b.cells) pos = some "_") :
    applyMove b pos sym = applyMoveFinish b b.turn b.winner (tblSet (split b.cells) pos sym) := by
  unfold applyMove
  rw [if_neg (by simp [hw]), if_neg (by simp [ht]), if_neg hp, if_neg (by simp [hc])]

theorem applyMove_error_unchanged (b : BoardState) (pos : Int) (sym : String)
    (r : List String) (b' : BoardState) (h : applyMove b pos sym = some (r, b'))
    (he : r.get? 0 = some "error") : b' = b := by
  by_cases hw : b.winner = ""
  · by_cases ht : sym = b.turn
    · by_cases hp : pos < 1 ∨ pos > 9
      · unfold applyMove at h
        rw [if_neg (by simp [hw]), if_neg (by simp [ht]), if_pos hp] at h
        cases h
        rfl
      · by_cases hc : tblGet (split b.cells) pos = some "_"
        · rw [applyMove_success_eq b pos sym hw ht hp hc] at h
          rcases applyMoveFinish_status _ _ _ _ _ _ h with h0 | h0 | h0 <;>
            rw [h0] at he <;> simp at he
        · unfold applyMove at h
          rw [if_neg (by simp [hw]), if_neg (by simp [ht]), if_neg hp, if_pos (by simp [hc])] at h
          cases h
          rfl
    · unfold applyMove at h
      rw [if_neg (by simp [hw]), if_pos (by simp [ht])] at h
      cases h
      rfl
  · unfold applyMove at h
    rw [if_pos hw] at h
    cases h
    rfl

theorem stateAfter_of_winner (b : BoardState) (pos : Int) (sym : String)
    (hw : b.winner ≠ "") : stateAfter b pos sym = b := by
  unfold stateAfter applyMove
  rw [if_pos hw]

theorem applyMove_err_winner (b : BoardState) (pos : Int) (sym : String)
    (hw : b.winner ≠ "") :
    applyMove b pos sym = some (["error", b.cells, b.winner], b) := by
  unfold applyMove
  rw [if_pos hw]

theorem applyMove_err_turn (b : BoardState) (pos : Int) (sym : String)
    (hw : b.winner = "") (ht : sym ≠ b.turn) :
    applyMove b pos sym = some (["error", b.cells, b.winner], b) := by
  unfold applyMove
  rw [if_neg (by simp [hw]), if_pos ht]

theorem applyMove_err_bounds (b : BoardState) (pos : Int) (sym : String)
    (hw : b.winner = "") (ht : sym = b.turn) (hp : pos < 1 ∨ pos > 9) :
    applyMove b pos sym = some (["error", b.cells, b.winner], b) := by
  unfold applyMove
  rw [if_neg (by simp [hw]), if_neg (by simp [ht]), if_pos hp]

theorem applyMove_err_occupied (b : BoardState) (pos : Int) (sym : String)
    (hw : b.winner = "") (ht : sym = b.turn) (hp : ¬(pos < 1 ∨ pos > 9))
    (hc : tblGet (split b.cells) pos ≠ some "_") :
    applyMove b pos sym = some (["error", b.cells, b.winner], b) := by
  unfold applyMove
  rw [if_neg (by simp [hw]), if_neg (by simp [ht]), if_neg hp, if_pos hc]

/-- C1: validation runs in the fixed order winner / turn / bounds /
occupancy; the first failing check yields an `error` reply with the
board's cells, turn and winner unchanged, and a board with a non-empty
winner rejects every subsequent move until a reset. -/
theorem C1_validation_order (b : BoardState) (pos : Int) (sym : String) :
    (b.winner ≠ "" → applyMove b pos sym = some (["error", b.cells, b.winner], b)) ∧
    (b.winner = "" → sym ≠ b.turn → applyMove b pos sym = some (["error", b.cells, b.winner], b)) ∧
    (b.winner = "" → sym = b.turn → (pos < 1 ∨ pos > 9) →
      applyMove b pos sym = some (["error", b.cells, b.winner], b)) ∧
    (b.winner = "" → sym = b.turn → ¬(pos < 1 ∨ pos > 9) →
      tblGet (split b.cells) pos ≠ some "_" →
      applyMove b pos sym = some (["error", b.cells, b.winner], b)) ∧
    (∀ r b', applyMove b pos sym = some (r, b') → r.get? 0 = some "error" → b' = b) ∧
    (b.winner ≠ "" → ∀ ms, applyMoves b ms = b) := by
  refine ⟨?_, ?_, ?_, ?_, ?_, ?_⟩
  · exact applyMove_err_winner b pos sym
  · exact applyMove_err_turn b pos sym
  · exact applyMove_err_bounds b pos sym
  · exact applyMove_err_occupied b pos sym
  · exact fun r b' => applyMove_error_unchanged b pos sym r b'
  · intro hw ms
    have hstep : ∀ st : BoardState, st.winner ≠ "" → ∀ m : Int × String,
        stateAfter st m.1 m.2 = st := fun st hst m => stateAfter_of_winner st m.1 m.2 hst
    unfold applyMoves
    induction ms with
    | nil => rfl
    | cons m ms ih =>
      rw [List.foldl_cons, hstep b hw m]
      exact ih

/-- Witness for C1 at a concrete won board. -/
theorem C1_validation_order_witness :
    ({ freshBoard with winner := "X" } : BoardState).winner ≠ "" ∧
    applyMove { freshBoard with winner := "X" } 5 "O" =
      some (["error", "_,_,_,_,_,_,_,_,_", "X"], { freshBoard with winner := "X" }) ∧
    applyMoves { freshBoard with winner := "X" } [(5, "O"), (1, "X")] =
      { freshBoard with winner := "X" } := by
  refine ⟨by decide, ?_, ?_⟩
  · exact (C1_validation_order { freshBoard with winner := "X" } 5 "O").1 (by decide)
  · exact (C1_validation_order { freshBoard with winner := "X" } 5 "O").2.2.2.2.2
      (by decide) [(5, "O"), (1, "X")]

theorem applyMoveFinish_cases (b : BoardState) (turn winner : String)
    (t : List String) (r : List String) (b' : BoardState)
    (h : applyMoveFinish b turn winner t = some (r, b')) :
    (∃ w, w ≠ "" ∧ r = ["win", joinCells t, w, turn] ∧
      b' = { b with cells := joinCells t, turn := turn, winner := w }) ∨
    (r = ["draw", joinCells t, "draw", turn] ∧
      b' = { b with cells := joinCells t, turn := turn, winner := "draw" }) ∨
    (r = ["ok", joinCells t, winner, if turn = "X" then "O" else "X"] ∧
      b' =
        { b with
          cells := joinCells t
          turn := (if turn = "X" then "O" else "X")
          winner := winner }) := by
  unfold applyMoveFinish at h
  rcases hs : scanLines t luaLines with _ | w <;> rw [hs] at h <;> dsimp only at h
  · exact absurd h (by simp)
  · by_cases hw : w = ""
    · rw [if_neg (by simp [hw])] at h
      by_cases hd : isDraw t
      · rw [if_pos hd] at h
        cases h
        right
        left
        exact ⟨rfl, rfl⟩
      · rw [if_neg hd] at h
        cases h
        right
        right
        exact ⟨rfl, rfl⟩
    · rw [if_pos hw] at h
      cases h
      left
      exact ⟨w, hw, rfl, rfl⟩

theorem applyMove_shape (b : BoardState) (pos : Int) (sym : String)
    (r : List String) (b' : BoardState) (h : applyMove b pos sym = some (r, b')) :
    (r = ["error", b.cells, b.winner] ∧ b' = b) ∨
    (b.winner = "" ∧ sym = b.turn ∧ ¬(pos < 1 ∨ pos > 9) ∧
      tblGet (split b.cells) pos = some "_" ∧
      applyMoveFinish b b.turn b.winner (tblSet (split b.cells) pos sym) = some (r, b')) := by
  by_cases hw : b.winner = ""
  · by_cases ht : sym = b.turn
    · by_cases hp : pos < 1 ∨ pos > 9
      · rw [applyMove_err_bounds b pos sym hw ht hp] at h
        cases h
        exact Or.inl ⟨rfl, rfl⟩
      · by_cases hc : tblGet (split b.cells) pos = some "_"
        · rw [applyMove_success_eq b pos sym hw ht hp hc] at h
          exact Or.inr ⟨hw, ht, hp, hc, h⟩
        · rw [applyMove_err_occupied b pos sym hw ht hp hc] at h
          cases h
          exact Or.inl ⟨rfl, rfl⟩
    · rw [applyMove_err_turn b pos sym hw ht] at h
      cases h
      exact Or.inl ⟨rfl, rfl⟩
  · rw [applyMove_err_winner b pos sym hw] at h
    cases h
    exact Or.inl ⟨rfl, rfl⟩

/-- C10: on a `win` or `draw` result the stored turn field and the
returned turn value both stay equal to the symbol just played; only an
`ok` result toggles the turn to the other symbol. -/
theorem C10_no_toggle_on_terminal (b : BoardState) (pos : Int) (sym : String)
    (r : List String) (b' : BoardState) (h : applyMove b pos sym = some (r, b')) :
    ((r.get? 0 = some "win" ∨ r.get? 0 = some "draw") →
      b'.turn = sym ∧ r.get? 3 = some sym) ∧
    (r.get? 0 = some "ok" →
      b'.turn = (if sym = "X" then "O" else "X") ∧
      r.get? 3 = some (if sym = "X" then "O" else "X")) := by
  rcases applyMove_shape b pos sym r b' h with ⟨hr, hb⟩ | ⟨hw, ht, hp, hc, hfin⟩
  · constructor
    · intro h0
      rcases h0 with h0 | h0 <;> rw [hr] at h0 <;> simp at h0
    · intro h0
      rw [hr] at h0
      simp at h0
  · subst ht
    rcases applyMoveFinish_cases _ _ _ _ _ _ hfin with ⟨w, hwne, hr, hb⟩ | ⟨hr, hb⟩ | ⟨hr, hb⟩
    · subst hr
      subst hb
      constructor
      · intro _
        exact ⟨rfl, rfl⟩
      · intro h0
        simp at h0
    · subst hr
      subst hb
      constructor
      · intro _
        exact ⟨rfl, rfl⟩
      · intro h0
        simp at h0
    · subst hr
      subst hb
      constructor
      · intro h0
        rcases h0 with h0 | h0 <;> simp at h0
      · intro _
        exact ⟨rfl, rfl⟩

/-- Witness for C10 at a concrete winning move. -/
theorem C10_no_toggle_on_terminal_witness :
    ({ freshBoard with cells := "X,X,X,O,O,_,_,_,_", winner := "X" } : BoardState).turn = "X" ∧
    (["win", "X,X,X,O,O,_,_,_,_", "X", "X"] : List String).get? 3 = some "X" :=
  (C10_no_toggle_on_terminal { freshBoard with cells := "X,X,_,O,O,_,_,_,_" } 3 "X"
    ["win", "X,X,X,O,O,_,_,_,_", "X", "X"]
    { freshBoard with cells := "X,X,X,O,O,_,_,_,_", winner := "X" }
    (by decide)).1 (Or.inl (by decide))

/-- C2: on a valid move (no winner yet, correct turn, position in
[1,9], empty target cell) the symbol is written into the cell, and the
outcome is classified against the spec-side winner scan (`specWinner`,
first completed line of the 8, rows/columns/diagonals in the fixed
order) and fullness test (`boardFull`): a completed line gives status
`win` with that line's symbol as winner; else a full board gives status
`draw`; else status `ok` with the turn toggled to the other symbol.  In
the `win`/`draw` cases the stored turn stays the played symbol. -/
theorem C2_success_outcome (b : BoardState) (pos : Int) (sym : String) (t : List String)
    (hsplit : split b.cells = t) (h9 : t.length = 9)
    (hw : b.winner = "") (ht : sym = b.turn) (hsym : sym = "X" ∨ sym = "O")
    (hp1 : 1 ≤ pos) (hp9 : pos ≤ 9) (hc : tblGet t pos = some "_") :
    tblGet (tblSet t pos sym) pos = some sym ∧
    (∀ w, specWinner (tblSet t pos sym) = some w →
      applyMove b pos sym = some
        (["win", joinCells (tblSet t pos sym), w, sym],
         { b with cells := joinCells (tblSet t pos sym), turn := sym, winner := w })) ∧
    (specWinner (tblSet t pos sym) = none → boardFull (tblSet t pos sym) = true →
      applyMove b pos sym = some
        (["draw", joinCells (tblSet t pos sym), "draw", sym],
         { b with cells := joinCells (tblSet t pos sym), turn := sym, winner := "draw" })) ∧
    (specWinner (tblSet t pos sym) = none → boardFull (tblSet t pos sym) = false →
      applyMove b pos sym = some
        (["ok", joinCells (tblSet t pos sym), "", if sym = "X" then "O" else "X"],
         { b with
           cells := joinCells (tblSet t pos sym)
           turn := (if sym = "X" then "O" else "X")
           winner := "" })) := by
  have hp : ¬(pos < 1 ∨ pos > 9) := by omega
  have hlt : (pos - 1).toNat < t.length := by
    unfold tblGet at hc
    rw [if_pos hp1] at hc
    obtain ⟨hlt, -⟩ := List.get?_eq_some.mp hc
    exact hlt
  have hset : tblSet t pos sym = t.set (pos - 1).toNat sym := by
    unfold tblSet
    rw [if_pos hp1]
  have h9' : (tblSet t pos sym).length = 9 := by
    rw [hset, List.length_set, h9]
  have hne' : ∀ c ∈ tblSet t pos sym, c ≠ "" := by
    intro c hcmem
    rw [hset] at hcmem
    rcases List.mem_or_eq_of_mem_set hcmem with hmem | hrfl
    · exact split_ne_nil b.cells c (hsplit ▸ hmem)
    · subst hrfl
      rcases hsym with h | h <;> simp [h]

  have hscan := scanLines_eq_specWinner (tblSet t pos sym) h9' hne'
  have hsucc : applyMove b pos sym =
      applyMoveFinish b b.turn b.winner (tblSet t pos sym) := by
    rw [applyMove_success_eq b pos sym hw ht hp (hsplit ▸ hc), hsplit]
  refine ⟨?_, ?_, ?_, ?_⟩
  · rw [hset]
    unfold tblGet
    rw [if_pos hp1]
    exact List.get?_set_eq_of_lt sym hlt
  · intro w hwin
    have hscan1 : scanLines (tblSet t pos sym) luaLines = some w := by
      rw [hscan.1, hwin]
      rfl
    have hwne : w ≠ "" := hscan.2 w hwin
    rw [hsucc]
    unfold applyMoveFinish
    rw [hscan1]
    dsimp only
    rw [if_pos hwne, ← ht]
  · intro hnone hfull
    have hscan1 : scanLines (tblSet t pos sym) luaLines = some "" := by
      rw [hscan.1, hnone]
      rfl
    rw [hsucc]
    unfold applyMoveFinish
    rw [hscan1]
    dsimp only
    rw [if_neg (by simp), if_pos (by rw [isDraw_eq_boardFull _ h9', hfull]), ← ht]
  · intro hnone hfull
    have hscan1 : scanLines (tblSet t pos sym) luaLines = some "" := by
      rw [hscan.1, hnone]
      rfl
    rw [hsucc]
    unfold applyMoveFinish
    rw [hscan1]
    dsimp only
    rw [if_neg (by simp), if_neg (by rw [isDraw_eq_boardFull _ h9', hfull]; simp), ← ht, ← hw]

/-- Witness for C2: the empty-board scenario (move 5 by X gives `ok`,
cell 5 = X, turn O) and the fixture win scenario. -/
theorem C2_success_outcome_witness :
    applyMove freshBoard 5 "X" = some
      (["ok", "_,_,_,_,X,_,_,_,_", "", "O"],
       { freshBoard with cells := "_,_,_,_,X,_,_,_,_", turn := "O" }) ∧
    applyMove { freshBoard with cells := "X,X,_,O,O,_,_,_,_" } 3 "X" = some
      (["win", "X,X,X,O,O,_,_,_,_", "X", "X"],
       { freshBoard with cells := "X,X,X,O,O,_,_,_,_", winner := "X" }) := by
  constructor
  · have h := (C2_success_outcome freshBoard 5 "X"
      ["_", "_", "_", "_", "_", "_", "_", "_", "_"]
      (by decide) (by decide) (by decide) (by decide) (Or.inl rfl)
      (by decide) (by decide) (by decide)).2.2.2 (by decide) (by decide)
    simpa using h
  · have h := (C2_success_outcome { freshBoard with cells := "X,X,_,O,O,_,_,_,_" } 3 "X"
      ["X", "X", "_", "O", "O", "_", "_", "_", "_"]
      (by decide) (by decide) (by decide) (by decide) (Or.inl rfl)
      (by decide) (by decide) (by decide)).2.1 "X" (by decide)
    simpa using h

theorem applyMove_reply_len (b : BoardState) (pos : Int) (sym : String)
    (arr : List String) (b' : BoardState) (h : applyMove b pos sym = some (arr, b')) :
    (arr.get? 0 = some "error" ∧ arr.length = 3) ∨
    ((arr.get? 0 = some "win" ∨ arr.get? 0 = some "draw" ∨ arr.get? 0 = some "ok") ∧
      arr.length = 4) := by
  rcases applyMove_shape b pos sym arr b' h with ⟨hr, -⟩ | ⟨-, -, -, -, hfin⟩
  · subst hr
    exact Or.inl ⟨rfl, rfl⟩
  · rcases applyMoveFinish_cases _ _ _ _ _ _ hfin with ⟨w, -, hr, -⟩ | ⟨hr, -⟩ | ⟨hr, -⟩ <;>
      subst hr
    · exact Or.inr ⟨Or.inl rfl, rfl⟩
    · exact Or.inr ⟨Or.inr (Or.inl rfl), rfl⟩
    · exact Or.inr ⟨Or.inr (Or.inr rfl), rfl⟩

/-- C5: when the atomic apply succeeds (status `ok`/`win`/`draw`) the
`move_made` result is published on the board channel (and fan-out
delivers a published message to every subscriber); when the script
rejects the move (status `error`) only the requester gets an `error`
reply and nothing is published. -/
theorem C5_publish_on_success (b : BoardState) (pos : Int) (sym : String)
    (arr : List String) (b' : BoardState) (h : applyMove b pos sym = some (arr, b')) :
    (arr.get? 0 = some "error" →
      handleMove b pos sym = (b', some (ServerMsg.errorMsg "invalid move"), [], false)) ∧
    (arr.get? 0 ≠ some "error" →
      handleMove b pos sym =
        (b', none,
         [ServerMsg.moveMade pos sym ((arr.get? 1).getD "") ((arr.get? 3).getD "")
            ((arr.get? 2).getD "")],
         decide ((arr.get? 2).getD "" ≠ ""))) ∧
    (∀ subs : List String, ∀ m : ServerMsg,
      fanout subs [m] = subs.map fun s => (s, m)) := by
  have hlen := applyMove_reply_len b pos sym arr b' h
  refine ⟨?_, ?_, ?_⟩
  · intro he
    have hl : ¬(arr.length < 2) := by
      rcases hlen with ⟨-, h3⟩ | ⟨-, h4⟩ <;> omega
    unfold handleMove
    rw [h]
    dsimp only
    rw [if_neg hl]
    rw [if_pos (by rw [he]; rfl)]
  · intro he
    have hst : arr.get? 0 = some "win" ∨ arr.get? 0 = some "draw" ∨ arr.get? 0 = some "ok" := by
      rcases hlen with ⟨h0, -⟩ | ⟨h0, -⟩
      · exact absurd h0 he
      · exact h0
    have h4 : arr.length = 4 := by
      rcases hlen with ⟨h0, -⟩ | ⟨-, h4⟩
      · exact absurd h0 he
      · exact h4
    unfold handleMove
    rw [h]
    dsimp only
    rw [if_neg (by omega)]
    rw [if_neg (by
      rcases hst with h0 | h0 | h0 <;> rw [h0] <;> simp)]
    rw [if_pos (by omega), if_pos (by omega)]
  · intro subs m
    unfold fanout
    simp

/-- Witness for C5: the success path on an empty board and the error
path on an already-won board. -/
theorem C5_publish_on_success_witness :
    handleMove freshBoard 5 "X" =
      ({ freshBoard with cells := "_,_,_,_,X,_,_,_,_", turn := "O" }, none,
       [ServerMsg.moveMade 5 "X" "_,_,_,_,X,_,_,_,_" "O" ""], false) ∧
    handleMove { freshBoard with winner := "X" } 5 "O" =
      ({ freshBoard with winner := "X" },
       some (ServerMsg.errorMsg "invalid move"), [], false) := by
  constructor
  · have h := (C5_publish_on_success freshBoard 5 "X"
      ["ok", "_,_,_,_,X,_,_,_,_", "", "O"]
      { freshBoard with cells := "_,_,_,_,X,_,_,_,_", turn := "O" }
      (by decide)).2.1 (by decide)
    simpa using h
  · exact (C5_publish_on_success { freshBoard with winner := "X" } 5 "O"
      ["error", "_,_,_,_,_,_,_,_,_", "X"]
      { freshBoard with winner := "X" }
      (by decide)).1 (by decide)

theorem lPopOrSentinel_eq (l : List String) :
    lPopOrSentinel l = (l.headD "Waiting...", l.tail) := by
  cases l <;> rfl

/-- The rotation queue right after `rotatePlayers` has pushed back the
real seat holders: seat X first, then seat O. -/
def pushedQueue (b : BoardState) (q : List String) : List String :=
  (q ++ (if isRealName b.playerXName then [b.playerXName] else []))
    ++ (if isRealName b.playerOName then [b.playerOName] else [])

theorem rotatePlayers_eq (b : BoardState) (q : List String) :
    (rotatePlayers b q).1.playerXName =
      (pushedQueue b q).headD "Waiting..." ∧
    (rotatePlayers b q).1.playerOName =
      ((pushedQueue b q).drop 1).headD "Waiting..." ∧
    (rotatePlayers b q).2.1 = (pushedQueue b q).drop 2 ∧
    (rotatePlayers b q).1.cells = "_,_,_,_,_,_,_,_,_" ∧
    (rotatePlayers b q).1.turn = "X" ∧
    (rotatePlayers b q).1.winner = "" ∧
    (rotatePlayers b q).2.2 =
      [ServerMsg.boardStateMsg (rotatePlayers b q).1,
       ServerMsg.spectatorsUpdate (rotatePlayers b q).2.1] := by
  have htail2 : ∀ l : List String, l.tail.tail = l.drop 2 := by
    intro l
    rcases l with - | ⟨a, t⟩
    · rfl
    · rcases t with - | ⟨c, r⟩ <;> rfl
  have htail1 : ∀ l : List String, l.tail = l.drop 1 := by
    intro l
    cases l <;> rfl
  have hq : (if isRealName b.playerOName = true
        then (if isRealName b.playerXName = true then q ++ [b.playerXName] else q) ++ [b.playerOName]
        else (if isRealName b.playerXName = true then q ++ [b.playerXName] else q)) =
      pushedQueue b q := by
    unfold pushedQueue
    split_ifs <;> simp
  unfold rotatePlayers resetBoardState
  simp only [lPopOrSentinel_eq]
  rw [hq, htail2, htail1]
  refine ⟨?_, ?_, ?_, ?_, ?_, ?_, ?_⟩ <;> first | rfl | trivial

/-- C3: `rotatePlayers` pushes the real seat holders to the back of the
queue (X first, then O), pops the front into seat X and the new front
into seat O (the `"Waiting..."` sentinel when exhausted), resets the
grid/turn/winner to the initial state, and publishes the refreshed
board state followed by the refreshed queue. -/
theorem C3_rotation (b : BoardState) (q : List String) :
    (rotatePlayers b q).1.playerXName =
      (pushedQueue b q).headD "Waiting..." ∧
    (rotatePlayers b q).1.playerOName =
      ((pushedQueue b q).drop 1).headD "Waiting..." ∧
    (rotatePlayers b q).2.1 = (pushedQueue b q).drop 2 ∧
    (rotatePlayers b q).1.cells = "_,_,_,_,_,_,_,_,_" ∧
    (rotatePlayers b q).1.turn = "X" ∧
    (rotatePlayers b q).1.winner = "" ∧
    (rotatePlayers b q).2.2 =
      [ServerMsg.boardStateMsg (rotatePlayers b q).1,
       ServerMsg.spectatorsUpdate (rotatePlayers b q).2.1] :=
  rotatePlayers_eq b q

/-- C4: `Join` fills seat X when it is unset or the sentinel, else seat
O, else appends to the back of the rotation queue; exactly one of the
three effects occurs. -/
theorem C4_join_trichotomy (b : BoardState) (q : List String) (name : String) :
    ((b.playerXName = "" ∨ b.playerXName = "Waiting...") →
      joinBoard b q name = ({ b with playerXName := name }, q)) ∧
    (¬(b.playerXName = "" ∨ b.playerXName = "Waiting...") →
      (b.playerOName = "" ∨ b.playerOName = "Waiting...") →
      joinBoard b q name = ({ b with playerOName := name }, q)) ∧
    (¬(b.playerXName = "" ∨ b.playerXName = "Waiting...") →
      ¬(b.playerOName = "" ∨ b.playerOName = "Waiting...") →
      joinBoard b q name = (b, q ++ [name])) := by
  refine ⟨?_, ?_, ?_⟩
  · intro h1
    unfold joinBoard
    rw [if_pos h1]
  · intro h1 h2
    unfold joinBoard
    rw [if_neg h1, if_pos h2]
  · intro h1 h2
    unfold joinBoard
    rw [if_neg h1, if_neg h2]

/-- Witness for C4: two identities join an empty board (first takes
seat X, second seat O) and a third is enqueued at queue position 1. -/
theorem C4_join_trichotomy_witness :
    joinBoard freshBoard [] "alice" = ({ freshBoard with playerXName := "alice" }, []) ∧
    joinBoard { freshBoard with playerXName := "alice" } [] "bob" =
      ({ freshBoard with playerXName := "alice", playerOName := "bob" }, []) ∧
    joinBoard { freshBoard with playerXName := "alice", playerOName := "bob" } [] "carol" =
      ({ freshBoard with playerXName := "alice", playerOName := "bob" }, ["carol"]) :=
  ⟨(C4_join_trichotomy freshBoard [] "alice").1 (Or.inl rfl),
   (C4_join_trichotomy { freshBoard with playerXName := "alice" } [] "bob").2.1
     (by decide) (Or.inl rfl),
   (C4_join_trichotomy { freshBoard with playerXName := "alice", playerOName := "bob" }
     [] "carol").2.2 (by decide) (by decide)⟩

/-! ## Membership invariant (C6) -/

theorem isRealName_iff (n : String) :
    isRealName n = true ↔ n ≠ "" ∧ n ≠ "Waiting..." := by
  unfold isRealName
  simp

/-- Side conditions under which one membership operation keeps the
at-most-once invariant: a join must bring a real identity that is not
already seated or queued (the code itself never checks this). -/
def opOk (s : BoardState × List String) : RoomOp → Prop
  | .joinOp n => isRealName n = true ∧ occCount n s = 0
  | .rotateOp => True
  | .disconnectOp _ => True

/-- `opOk` along a whole operation sequence. -/
def traceOk : BoardState × List String → List RoomOp → Prop
  | _, [] => True
  | s, op :: ops => opOk s op ∧ traceOk (stepRoom s op) ops

theorem count_pushedQueue (b : BoardState) (q : List String) (n : String)
    (hn : isRealName n = true) :
    (pushedQueue b q).count n = occCount n (b, q) := by
  have hpush : ∀ (c : Bool) (x : String),
      List.count n (if c = true then [x] else []) = if c = true ∧ x = n then 1 else 0 := by
    intro c x
    cases c
    · simp
    · simp [List.count_singleton']
  unfold pushedQueue occCount
  rw [List.count_append, List.count_append, hpush, hpush]
  split_ifs <;> simp_all [isRealName_iff] <;> omega

theorem atMostOnce_join (s : BoardState × List String) (n0 : String)
    (h0 : isRealName n0 = true) (hfresh : occCount n0 s = 0)
    (hinv : atMostOnce s) : atMostOnce (joinBoard s.1 s.2 n0) := by
  obtain ⟨b, q⟩ := s
  intro n hn
  have hocc := hinv n hn
  unfold occCount at hfresh hocc ⊢
  dsimp only at hfresh hocc ⊢
  unfold joinBoard
  by_cases h1 : b.playerXName = "" ∨ b.playerXName = "Waiting..."
  · rw [if_pos h1]
    dsimp only
    by_cases he : n = n0
    · subst he
      split_ifs at hfresh ⊢ <;> first | omega | (exfalso; simp_all)
    · split_ifs at hocc ⊢ <;> first | omega | (exfalso; simp_all)
  · rw [if_neg h1]
    by_cases h2 : b.playerOName = "" ∨ b.playerOName = "Waiting..."
    · rw [if_pos h2]
      dsimp only
      by_cases he : n = n0
      · subst he
        split_ifs at hfresh ⊢ <;> first | omega | (exfalso; simp_all)
      · split_ifs at hocc ⊢ <;> first | omega | (exfalso; simp_all)
    · rw [if_neg h2]
      dsimp only
      rw [List.count_append]
      simp only [List.count_singleton']
      by_cases he : n = n0
      · subst he
        split_ifs at hfresh ⊢ <;> first | omega | (exfalso; simp_all)
      · split_ifs at hocc ⊢ <;> first | omega | (exfalso; simp_all)

theorem atMostOnce_rotate (s : BoardState × List String)
    (hinv : atMostOnce s) : atMostOnce (stepRoom s .rotateOp) := by
  obtain ⟨b, q⟩ := s
  intro n hn
  have hrot := rotatePlayers_eq b q
  show occCount n ((rotatePlayers b q).1, (rotatePlayers b q).2.1) ≤ 1
  unfold occCount
  dsimp only
  rw [hrot.1, hrot.2.1, hrot.2.2.1]
  have hn' : ¬("Waiting..." = n) := by
    intro h
    exact ((isRealName_iff n).mp hn).2 h.symm
  rcases hP : pushedQueue b q with - | ⟨a, t⟩
  · simp [hn']
  · rcases t with - | ⟨c, r⟩
    · simp only [List.headD_cons, List.drop_succ_cons, List.drop_nil, List.headD_nil,
        List.count_nil, if_neg hn']
      split_ifs <;> omega
    · have hkey : List.count n (a :: c :: r) ≤ 1 := by
        rw [← hP, count_pushedQueue b q n hn]
        exact hinv n hn
      simp only [List.headD_cons, List.drop_succ_cons, List.drop_zero,
        List.count_cons, beq_iff_eq] at hkey ⊢
      split_ifs at hkey ⊢ <;> omega

theorem atMostOnce_disconnect (s : BoardState × List String) (n0 : String)
    (hinv : atMostOnce s) : atMostOnce (stepRoom s (.disconnectOp n0)) := by
  obtain ⟨b, q⟩ := s
  intro n hn
  simp only [stepRoom]
  by_cases h0 : n0 = ""
  · rw [if_pos h0]
    exact hinv n hn
  · rw [if_neg h0]
    have hocc := hinv n hn
    have hle : (removeFromQueue q n0).count n ≤ q.count n :=
      (List.filter_sublist q).count_le n
    unfold occCount at hocc ⊢
    dsimp only at hocc ⊢
    split_ifs at hocc ⊢ <;> omega

/-- Counterexample to C6 as stated: the same identity joining twice
takes both seats, so it occurs twice across seats and queue. -/
theorem C6_counterexample :
    ¬ atMostOnce (runRoom (freshBoard, []) [RoomOp.joinOp "alice", RoomOp.joinOp "alice"]) := by
  intro h
  have h2 := h "alice" (by decide)
  revert h2
  decide

/-- C6 (amended): the at-most-once occurrence invariant is preserved by
every sequence of join/rotate/disconnect operations, provided each join
brings a real identity that does not already occupy a seat or a queue
slot; the code performs no such deduplication itself, so the unamended
claim fails when the same identity joins twice. -/
theorem C6_at_most_once (s : BoardState × List String) (ops : List RoomOp)
    (hinv : atMostOnce s) (hops : traceOk s ops) : atMostOnce (runRoom s ops) := by
  induction ops generalizing s with
  | nil => exact hinv
  | cons op ops ih =>
    obtain ⟨hop, hops'⟩ := hops
    have hstep : atMostOnce (stepRoom s op) := by
      cases op with
      | joinOp n => exact atMostOnce_join s n hop.1 hop.2 hinv
      | rotateOp => exact atMostOnce_rotate s hinv
      | disconnectOp n => exact atMostOnce_disconnect s n hinv
    exact ih (stepRoom s op) hstep hops'

theorem atMostOnce_start : atMostOnce (freshBoard, []) := by
  intro n hn
  have hne : ¬("" = n) := fun h => ((isRealName_iff n).mp hn).1 h.symm
  unfold occCount freshBoard
  simp [hne]

/-- Witness for C6 (amended) on a concrete five-operation trace. -/
theorem C6_at_most_once_witness :
    atMostOnce (runRoom (freshBoard, [])
      [RoomOp.joinOp "alice", RoomOp.joinOp "bob", RoomOp.joinOp "carol",
       RoomOp.rotateOp, RoomOp.disconnectOp "bob"]) :=
  C6_at_most_once (freshBoard, [])
    [RoomOp.joinOp "alice", RoomOp.joinOp "bob", RoomOp.joinOp "carol",
     RoomOp.rotateOp, RoomOp.disconnectOp "bob"]
    atMostOnce_start
    ⟨⟨by decide, by decide⟩, ⟨by decide, by decide⟩, ⟨by decide, by decide⟩,
     trivial, trivial, trivial⟩

/-! ## Chat cache-aside path (C7, C8) -/

theorem loadFromDisk_eq_drop (n : Nat) (l : List String) :
    loadFromDisk n l = l.drop (l.length - n) := by
  unfold loadFromDisk
  split_ifs with h
  · rfl
  · have h0 : l.length - n = 0 := by omega
    rw [h0, List.drop_zero]

theorem lTrimLast50_eq_drop (l : List String) :
    lTrimLast50 l = l.drop (l.length - 50) := by
  unfold lTrimLast50
  split_ifs with h
  · rfl
  · have h0 : l.length - 50 = 0 := by omega
    rw [h0, List.drop_zero]

/-- Appending one entry to the last-50 window of the log and re-trimming
gives the last-50 window of the extended log. -/
theorem window_append (d : List String) (e : String) :
    lTrimLast50 (loadFromDisk 50 d ++ [e]) = loadFromDisk 50 (d ++ [e]) := by
  rw [lTrimLast50_eq_drop, loadFromDisk_eq_drop, loadFromDisk_eq_drop]
  simp only [List.length_append, List.length_drop, List.length_singleton]
  by_cases h : d.length ≤ 50
  · have h0 : d.length - 50 = 0 := by omega
    rw [h0]
    simp
  · have h1 : d.length - (d.length - 50) + 1 - 50 = 1 := by omega
    rw [h1]
    rw [List.drop_append_of_le_length (by rw [List.length_drop]; omega), List.drop_drop]
    rw [List.drop_append_of_le_length (by omega)]
    have h2 : d.length - 50 + 1 = d.length + 1 - 50 := by omega
    rw [h2]

theorem lTrimLast50_length_le (l : List String) : (lTrimLast50 l).length ≤ 50 := by
  unfold lTrimLast50
  split_ifs with h
  · rw [List.length_drop]
    omega
  · omega

/-- Counterexample to C7 as stated: a chat that arrives while the cache
key is absent (e.g. after expiry) seeds the cache with that entry only,
so the cache-hit path and the cache-miss path disagree on the same log. -/
theorem C7_counterexample :
    (fetchHistory (handleChat true ["old"] none "new").1
        (some (handleChat true ["old"] none "new").2.1)).1 ≠
    (fetchHistory (handleChat true ["old"] none "new").1 none).1 := by
  decide

/-- C7 (amended): whenever the cached window matches the last-50 window
of the durable log (`cacheInv` — the correspondence the miss path
establishes and that chats preserve while the cache is populated), the
cache-hit path and the cache-miss path return the same entries in the
same order, and fetching again after an eviction returns the same
last-50 entries; the correspondence can only be broken by a chat posted
while the cache is absent, which seeds a one-entry cache. -/
theorem C7_fetch_paths_agree (disk : List String) (cache : Option (List String))
    (hinv : cacheInv disk cache) :
    (fetchHistory disk cache).1 = (fetchHistory disk none).1 ∧
    (fetchHistory disk none).1 = loadFromDisk 50 disk ∧
    cacheInv disk (fetchHistory disk cache).2 ∧
    (∀ e h, cache = some h →
      cacheInv (disk ++ [e]) (some (handleChat true disk cache e).2.1)) := by
  have hmiss : (fetchHistory disk none).1 = loadFromDisk 50 disk := by
    unfold fetchHistory
    dsimp only
    split_ifs <;> rfl
  refine ⟨?_, hmiss, ?_, ?_⟩
  · rcases hc : cache with - | h
    · rfl
    · have hh : h = loadFromDisk 50 disk := hinv h hc
      rw [hmiss]
      unfold fetchHistory
      exact hh
  · rcases hc : cache with - | h
    · unfold fetchHistory
      dsimp only
      split_ifs with h0
      · intro h1 hh1
        cases hh1
        rfl
      · intro h1 hh1
        cases hh1
    · have hh : h = loadFromDisk 50 disk := hinv h hc
      unfold fetchHistory
      intro h1 hh1
      cases hh1
      exact hh
  · intro e h hc
    subst hc
    have hh : h = loadFromDisk 50 disk := hinv h rfl
    intro h1 hh1
    cases hh1
    unfold handleChat
    dsimp only
    rw [Option.getD_some, hh]
    exact window_append disk e

/-- Witness for C7 (amended) on a concrete log and matching cache. -/
theorem C7_fetch_paths_agree_witness :
    (fetchHistory ["a", "b"] (some ["a", "b"])).1 = (fetchHistory ["a", "b"] none).1 :=
  (C7_fetch_paths_agree ["a", "b"] (some ["a", "b"])
    (by
      intro h hh
      cases hh
      decide)).1

/-- Every cached entry is recorded in the durable log. -/
def cacheSubsetLog (disk : List String) (cache : Option (List String)) : Prop :=
  ∀ x ∈ cache.getD [], x ∈ disk

instance (disk : List String) (cache : Option (List String)) :
    Decidable (cacheSubsetLog disk cache) := by
  unfold cacheSubsetLog
  infer_instance

/-- Counterexample to C8 as stated: when the durable append fails
(`writeToDisk` only logs the error), the handler still caches and
publishes the entry, so a chat entry exists in the cache without ever
having been durably recorded. -/
theorem C8_counterexample :
    "hi" ∈ (handleChat false [] none "hi").2.1 ∧
    "hi" ∉ (handleChat false [] none "hi").1 := by
  decide

/-- C8 (amended): the `chat` handler performs its effects in the fixed
order disk-append, cache-push, trim-to-50, expiry-refresh (1 hour),
publish; the cache window never exceeds 50 entries; and when the
durable append succeeds the log gets the entry and every cached entry
remains durably recorded.  When the append fails the log is unchanged
but the entry is still cached and published, so durability-before-cache
holds only for successful appends. -/
theorem C8_chat_order (diskOk : Bool) (disk : List String)
    (cache : Option (List String)) (entry : String) :
    (handleChat diskOk disk cache entry).2.2 =
      [ChatEffect.diskAppend entry diskOk, ChatEffect.cachePush entry,
       ChatEffect.cacheTrimLast 50, ChatEffect.cacheExpireSeconds 3600,
       ChatEffect.publish (ServerMsg.chatMsg entry)] ∧
    (handleChat diskOk disk cache entry).2.1.length ≤ 50 ∧
    (diskOk = true → (handleChat diskOk disk cache entry).1 = disk ++ [entry]) ∧
    (diskOk = true → cacheSubsetLog disk cache →
      cacheSubsetLog (handleChat diskOk disk cache entry).1
        (some (handleChat diskOk disk cache entry).2.1)) ∧
    (diskOk = false → (handleChat diskOk disk cache entry).1 = disk) := by
  refine ⟨rfl, ?_, ?_, ?_, ?_⟩
  · exact lTrimLast50_length_le _
  · intro h
    unfold handleChat
    rw [h]
    rfl
  · intro h hsub x hx
    unfold handleChat at hx ⊢
    rw [h] at hx ⊢
    dsimp only at hx ⊢
    rw [if_pos rfl]
    rw [lTrimLast50_eq_drop] at hx
    rw [Option.getD_some] at hx
    have hx2 : x ∈ cache.getD [] ++ [entry] := List.mem_of_mem_drop hx
    rw [List.mem_append] at hx2
    rw [List.mem_append]
    rcases hx2 with hx2 | hx2
    · exact Or.inl (hsub x hx2)
    · exact Or.inr hx2
  · intro h
    unfold handleChat
    rw [h]
    rfl

/-- Witness for C8 (amended) at a concrete successful chat append. -/
theorem C8_chat_order_witness :
    (handleChat true ["x"] (some ["x"]) "y").1 = ["x", "y"] ∧
    cacheSubsetLog (handleChat true ["x"] (some ["x"]) "y").1
      (some (handleChat true ["x"] (some ["x"]) "y").2.1) :=
  ⟨(C8_chat_order true ["x"] (some ["x"]) "y").2.2.1 rfl,
   (C8_chat_order true ["x"] (some ["x"]) "y").2.2.2.1 rfl (by decide)⟩

/-! ## Connection teardown (C9) -/

theorem closeClient_closed (c : Client) (q : List String) :
    (closeClient c q).1.1.closed = true := by
  unfold closeClient
  split_ifs with h h2
  · exact h
  · rfl
  · rfl

/-- C9: the first `close` removes the connection's named identity from
the queue and re-broadcasts it, marks the connection closed with all
its resources released, and a `close` of an already-closed connection
is a pure no-op (idempotent teardown). -/
theorem C9_close_idempotent (c : Client) (q : List String) :
    (closeClient c q).1.1.closed = true ∧
    (c.closed = true → closeClient c q = ((c, q), [])) ∧
    (c.closed = false → c.name ≠ "" →
      closeClient c q =
        (({ c with
            closed := true
            pubsubOpen := false
            doneClosed := true
            sendClosed := true
            connClosed := true }, removeFromQueue q c.name),
         [ServerMsg.spectatorsUpdate (removeFromQueue q c.name)])) ∧
    (c.closed = false → c.name = "" →
      closeClient c q =
        (({ c with
            closed := true
            pubsubOpen := false
            doneClosed := true
            sendClosed := true
            connClosed := true }, q), [])) ∧
    closeClient (closeClient c q).1.1 (closeClient c q).1.2 = ((closeClient c q).1, []) := by
  refine ⟨?_, ?_, ?_, ?_, ?_⟩
  · exact closeClient_closed c q
  · intro h
    unfold closeClient
    rw [if_pos h]
  · intro h hn
    unfold closeClient
    rw [if_neg (by rw [h]; exact Bool.false_ne_true)]
    dsimp only
    rw [if_pos hn, if_pos hn]
  · intro h hn
    unfold closeClient
    rw [if_neg (by rw [h]; exact Bool.false_ne_true)]
    dsimp only
    rw [if_neg (by rw [hn]; exact fun hx => hx rfl), if_neg (by rw [hn]; exact fun hx => hx rfl)]
  · have hcl := closeClient_closed c q
    rcases hres : closeClient c q with ⟨⟨c', q'⟩, msgs⟩
    rw [hres] at hcl
    show closeClient c' q' = ((c', q'), [])
    unfold closeClient
    rw [if_pos hcl]

/-- Witness for C9: a named connection closing from the open state, and
the second close being a no-op. -/
theorem C9_close_idempotent_witness :
    closeClient
      { closed := false, name := "alice", pubsubOpen := true, doneClosed := false,
        sendClosed := false, connClosed := false } ["alice", "bob"] =
      (({ closed := true, name := "alice", pubsubOpen := false, doneClosed := true,
          sendClosed := true, connClosed := true }, ["bob"]),
       [ServerMsg.spectatorsUpdate ["bob"]]) := by
  have h := (C9_close_idempotent
    { closed := false, name := "alice", pubsubOpen := true, doneClosed := false,
      sendClosed := false, connClosed := false } ["alice", "bob"]).2.2.1 rfl (by decide)
  rw [h]
  decide

end TicTacToeRedis
